import Mathlib

/-
Verification development for the euchre_py repository (src/main.py).

The Python program is shallowly embedded below.  Pure card logic (card
values, the sort key, the legal-play filter, trick resolution, round
scoring, the left-bower table) is translated function by function from
main.py.  The stateful EuchreTable methods are translated as functions on
an explicit GameState record; calls to Python's random module
(random.shuffle, random.choice) and to the interactive decision logics
are abstracted as oracle inputs: a shuffled-deck list, a list of bid
outcomes (one entry per decide_trump call, covering the pass, the
Suit-member and the raw-value-string returns), and a list of choice
indices (one per random.choice call).  Python None-able fields become
Option types, and Python == comparisons against possibly-None fields
become equalities of Options.

Python's list.pop() removes the last element and list.append adds at the
end.  The deck list is kept here in pop order (head = next card popped),
so deal_one_card is head/tail and add_back_to_deck is cons; since the
deck contents only ever enter play through a random shuffle, this
orientation is just a representation choice for the same state.
-/

namespace Euchre

/-- The four suits, from class Suit in main.py. -/
inductive Suit
  | SPADES
  | HEARTS
  | CLUBS
  | DIAMONDS
deriving DecidableEq, Fintype

/-- The six euchre ranks.  main.py stores ranks as the strings
"9","10","J","Q","K","A" drawn from the fixed list in
EuchreTable.__init__; we model that closed set as an inductive type. -/
inductive Rank
  | nine
  | ten
  | J
  | Q
  | K
  | A
deriving DecidableEq, Fintype

/-- A card, from class Card in main.py: a rank paired with a suit. -/
structure Card where
  rank : Rank
  suit : Suit
deriving DecidableEq, Fintype

/-- EuchreTable.assign_card_value: the relative rank of a card ignoring
trump (9 through A give 0 through 5; the final `return 0` for unknown
ranks is unreachable over the closed rank set). -/
def assign_card_value (card : Card) : Nat :=
  match card.rank with
  | Rank.nine => 0
  | Rank.ten => 1
  | Rank.J => 2
  | Rank.Q => 3
  | Rank.K => 4
  | Rank.A => 5

/-- EuchreTable.is_value_bigger: True when card1 outranks card2 by raw
(no-trump) rank value. -/
def is_value_bigger (card1 card2 : Card) : Bool :=
  assign_card_value card1 > assign_card_value card2

/-- The trump-suit to left-bower-suit table written as an elif chain at
the end of EuchreTable.determine_trump. -/
def left_bower_of : Suit → Suit
  | Suit.SPADES => Suit.CLUBS
  | Suit.HEARTS => Suit.DIAMONDS
  | Suit.CLUBS => Suit.SPADES
  | Suit.DIAMONDS => Suit.HEARTS

/-- The base value the sort key in Player.sort_hand assigns each rank
(A=1, K=2, Q=3, J=4, 10=5, 9=6 via the elif chain; the initial value 0
is always overwritten since every rank matches one branch). -/
def rank_sort_value : Rank → Int
  | Rank.A => 1
  | Rank.K => 2
  | Rank.Q => 3
  | Rank.J => 4
  | Rank.ten => 5
  | Rank.nine => 6

/-- The compare_trump closure inside Player.sort_hand, the key function
of the hand sort.  Python's `if trump_suit and ...` tests that
trump_suit is not None; `card.suit == trump_suit` against a possibly-
None trump_suit is modelled as an equality of Options. -/
def compare_trump (trump_suit left_bower_suit : Option Suit) (card : Card) : Int :=
  if trump_suit ≠ none ∧ card.rank = Rank.J ∧ some card.suit = trump_suit then -7
  else if trump_suit ≠ none ∧ card.rank = Rank.J ∧ some card.suit = left_bower_suit then -6
  else
    let value := rank_sort_value card.rank
    if some card.suit = trump_suit then value - 6
    else match card.suit with
      | Suit.SPADES => value + 0
      | Suit.HEARTS => value + 6
      | Suit.CLUBS => value + 12
      | Suit.DIAMONDS => value + 18

/-- Player.sort_hand: a stable sort of the hand by the compare_trump
key (Python's list.sort is stable; insertion sort is stable too). -/
def sort_hand (trump_suit left_bower_suit : Option Suit) (hand : List Card) : List Card :=
  hand.insertionSort
    (fun a b => compare_trump trump_suit left_bower_suit a ≤ compare_trump trump_suit left_bower_suit b)

/-- The compare_trump closure evaluated when the trump_suit attribute
holds a suit's raw value string rather than a Suit member (the state
the RANDOM second-round bid can leave, see decide_trump_random): the
string is truthy, so the Jack guard is entered, but it equals no
card's suit, so only the left-bower test and the plain suit buckets
can fire. -/
def compare_trump_raw (left_bower_suit : Option Suit) (card : Card) : Int :=
  if card.rank = Rank.J ∧ some card.suit = left_bower_suit then -6
  else
    let value := rank_sort_value card.rank
    match card.suit with
    | Suit.SPADES => value + 0
    | Suit.HEARTS => value + 6
    | Suit.CLUBS => value + 12
    | Suit.DIAMONDS => value + 18

/-- Player.sort_hand under a raw-string trump attribute. -/
def sort_hand_raw (left_bower_suit : Option Suit) (hand : List Card) : List Card :=
  hand.insertionSort
    (fun a b => compare_trump_raw left_bower_suit a ≤ compare_trump_raw left_bower_suit b)

/-- The per-card condition of the playable_cards loop in
Player.play_card: the three-way elif chain deciding whether `card` from
the hand is appended to playable_cards given the lead card. -/
def playable_card_pred (trump_suit left_bower_suit : Option Suit) (lead_card card : Card) : Bool :=
  if some lead_card.suit = trump_suit ∧ some card.suit = left_bower_suit ∧ card.rank = Rank.J then
    true
  else if some lead_card.suit = left_bower_suit ∧ lead_card.rank = Rank.J ∧
      some card.suit = trump_suit then
    true
  else if lead_card.suit = card.suit then
    if card.rank = Rank.J ∧ some card.suit = left_bower_suit then false else true
  else false

/-- The playable_cards computation of Player.play_card: with no lead
card the whole hand is playable; otherwise the hand is filtered by
playable_card_pred, and if that filter is empty the whole hand becomes
playable. -/
def playable_cards (trump_suit left_bower_suit : Option Suit) (lead_card : Option Card)
    (hand : List Card) : List Card :=
  match lead_card with
  | none => hand
  | some lead =>
    let pc := hand.filter (playable_card_pred trump_suit left_bower_suit lead)
    if pc.isEmpty then hand else pc

/-- Player.play_card under the RANDOM card decision logic (the logic
the program's main() installs for every seat): random.choice is
abstracted as an oracle index into the playable list, the chosen card
is removed from the hand (list.remove drops the first occurrence) and
returned.  The getD default is never consulted in a real run, where the
hand (hence the playable list) is non-empty. -/
def play_card (trump_suit left_bower_suit : Option Suit) (lead_card : Option Card)
    (hand : List Card) (choice_idx : Nat) : Card × List Card :=
  let pc := playable_cards trump_suit left_bower_suit lead_card hand
  let c := pc.getD (choice_idx % pc.length) (Card.mk Rank.nine Suit.SPADES)
  (c, hand.erase c)

/-- One comparison step of the loop in EuchreTable.process_trick: given
the current provisional winning seat and the seat being processed,
return the new provisional winner.  This is the if/elif tree of the
loop body for the iterations after the first (the first iteration only
installs the lead seat as provisional winner). -/
def trick_step (trump_suit left_bower_suit : Option Suit) (lead_suit : Suit)
    (cards : Fin 4 → Card) (winner seat : Fin 4) : Fin 4 :=
  if some (cards winner).suit = trump_suit then
    if (cards winner).rank = Rank.J then winner
    else if some (cards seat).suit = left_bower_suit ∧ (cards seat).rank = Rank.J then seat
    else if some (cards seat).suit = trump_suit then
      if is_value_bigger (cards seat) (cards winner) then seat else winner
    else winner
  else if some (cards winner).suit = left_bower_suit ∧ (cards winner).rank = Rank.J then
    if some (cards seat).suit = trump_suit ∧ (cards seat).rank = Rank.J then seat else winner
  else if some (cards seat).suit = trump_suit then seat
  else if some (cards seat).suit = left_bower_suit ∧ (cards seat).rank = Rank.J then seat
  else if (cards seat).suit = lead_suit ∧ is_value_bigger (cards seat) (cards winner) then seat
  else winner

/-- EuchreTable.process_trick on a completed trick (one card per seat):
the loop runs over the four seats starting at lead_seat; iteration 0
records the lead card's printed suit as lead_suit and makes lead_seat
the provisional winner, and the remaining three iterations apply
trick_step. -/
def process_trick (trump_suit left_bower_suit : Option Suit) (cards : Fin 4 → Card)
    (lead_seat : Fin 4) : Fin 4 :=
  let ls := (cards lead_seat).suit
  let w1 := trick_step trump_suit left_bower_suit ls cards lead_seat (lead_seat + 1)
  let w2 := trick_step trump_suit left_bower_suit ls cards w1 (lead_seat + 2)
  trick_step trump_suit left_bower_suit ls cards w2 (lead_seat + 3)

/-- The mutable fields of class EuchreTable (and the four players'
hands), minus the presentation-only test_mode flag and the per-player
decision-logic enums, whose effect (the random choices) is abstracted
as oracle inputs to the functions below. -/
structure GameState where
  hands : Fin 4 → List Card
  deck : List Card
  dealer : Fin 4
  curr_seat : Fin 4
  up_card : Option Card
  hidden_up_card : Option Card
  trump_suit : Option Suit
  left_bower_suit : Option Suit
  lead_seat : Option (Fin 4)
  trump_caller : Option (Fin 4)
  score_02 : Nat
  score_13 : Nat
  cards_played : Fin 4 → Option Card
  tricks_won_02 : Nat
  tricks_won_13 : Nat

/-- The state EuchreTable.__init__ produces (empty hands, empty current
deck, everything else zero or None). -/
def stBase : GameState where
  hands := fun _ => []
  deck := []
  dealer := 0
  curr_seat := 0
  up_card := none
  hidden_up_card := none
  trump_suit := none
  left_bower_suit := none
  lead_seat := none
  trump_caller := none
  score_02 := 0
  score_13 := 0
  cards_played := fun _ => none
  tricks_won_02 := 0
  tricks_won_13 := 0

/-- The list of ranks EuchreTable.__init__ passes to Deck. -/
def allRanks : List Rank :=
  [Rank.nine, Rank.ten, Rank.J, Rank.Q, Rank.K, Rank.A]

/-- The list of suits EuchreTable.__init__ passes to Deck. -/
def allSuits : List Suit :=
  [Suit.SPADES, Suit.HEARTS, Suit.CLUBS, Suit.DIAMONDS]

/-- Deck.__init__: the 24-card base deck, built suit-major exactly as
the nested loops in main.py build self.base.  Deck.shuffle resets the
current deck to a random permutation of this list; shuffles are
modelled as oracle inputs that are permutations of euchreBase. -/
def euchreBase : List Card :=
  allSuits.flatMap (fun s => allRanks.map (fun r => Card.mk r s))

/-- One outcome of a Player.decide_trump call.  The source returns
None (a pass), a Suit member, or — in the RANDOM logic's second-round
branch — a suit's raw value string, which is truthy like a member but
equal to no member. -/
inductive BidEntry
  | passed
  | member (s : Suit)
  | valueString (s : Suit)
deriving DecidableEq

/-- Player.decide_trump under RANDOM trump decision logic, the logic
the program's main() installs for every seat, with random.choice
abstracted as an oracle index into the candidate list (reduced mod its
positive length).  With an up-card showing, the candidates are its
suit (a Suit member) and a pass.  With the up-card turned down, the
source builds the candidates from e.value for every suit e other than
the turned-down suit — the raw value strings, not the members — plus a
pass.  A None hidden_up_card would raise in Python on that path; the
comparison against a missing suit here simply excludes nothing. -/
def decide_trump_random (up_card hidden_up_card : Option Card) (pick : Nat) : BidEntry :=
  match up_card with
  | some u =>
    let cs := [BidEntry.member u.suit, BidEntry.passed]
    cs.getD (pick % cs.length) BidEntry.passed
  | none =>
    let cs := (allSuits.filter (fun e => some e ≠ hidden_up_card.map Card.suit)).map
        BidEntry.valueString ++ [BidEntry.passed]
    cs.getD (pick % cs.length) BidEntry.passed

/-- The while loop of EuchreTable.euchre_deal_cards, with a fuel
parameter in place of Python's unbounded while.  Arguments after fuel:
the previous num_cards_to_deal, the hands, the current deck, the dealer
and the current seat; the result is the hands, deck and current seat
when the dealer's hand reaches 5 cards.  In any state the real program
reaches, the loop exits within 12 iterations (each full cycle of the 4
seats grows the dealer's hand), so fuel 16 never runs out there; the
fuel-exhausted branch, like Python's pop from an exhausted deck, is
outside the behaviour the source can exhibit. -/
def deal_loop : Nat → Nat → (Fin 4 → List Card) → List Card → Fin 4 → Fin 4 →
    ((Fin 4 → List Card) × List Card × Fin 4)
  | 0, _, hands, deck, _, curr => (hands, deck, curr)
  | fuel + 1, nPrev, hands, deck, dealer, curr =>
    if (hands dealer).length < 5 then
      let n := if (hands curr).length = 0 then (if nPrev = 3 then 2 else 3)
               else 5 - (hands curr).length
      deal_loop fuel n (Function.update hands curr (hands curr ++ deck.take n)) (deck.drop n)
        dealer (curr + 1)
    else (hands, deck, curr)

/-- EuchreTable.euchre_deal_cards: reset the current deck to a fresh
shuffle (the oracle argument), run the dealing loop until the dealer
holds 5 cards, draw the up-card, and sort every hand under the current
(possibly absent) trump context.  num_cards_to_deal starts at 0. -/
def euchre_deal_cards (shuffled : List Card) (st : GameState) : GameState :=
  let r := deal_loop 16 0 st.hands shuffled st.dealer st.curr_seat
  { st with
      hands := fun s => sort_hand st.trump_suit st.left_bower_suit (r.1 s),
      deck := r.2.1.tail,
      up_card := r.2.1.head?,
      curr_seat := r.2.2 }

/-- The trump-negotiation loop of EuchreTable.determine_trump.  Each
list entry is the outcome of one Player.decide_trump call (see
BidEntry); the player decision logics involve random.choice and user
input, so they are abstracted as this oracle.  A member entry ends
bidding the intended way: the left-bower table is applied, the caller
recorded, the seat reset left of the dealer and all hands re-sorted,
as in the source after the while loop.  A valueString entry — the raw
string decide_trump returns under RANDOM logic in the second round —
also ends bidding, because the string is truthy, but it equals no Suit
member: the elif table leaves left_bower_suit stale, the trump_suit
attribute names no suit (it holds the string, which every later
comparison against a member or a card suit fails to match, recorded
here as the field staying none), and the hands are sorted under the
string-trump key.  A passed entry advances the seat; wrapping back to
the seat left of the dealer either turns down the up-card (putting it
back on the deck) or, if it was already turned down, aborts with
False.  An exhausted oracle is returned as a failure; the real program
always obtains one decision per call, and at most 8 calls can occur. -/
def dt_loop : List BidEntry → GameState → Bool × GameState
  | [], st => (false, st)
  | d :: ds, st =>
    match d with
    | BidEntry.member t =>
      let lb := left_bower_of t
      (true, { st with
          trump_suit := some t,
          left_bower_suit := some lb,
          trump_caller := some st.curr_seat,
          curr_seat := st.dealer + 1,
          hands := fun s => sort_hand (some t) (some lb) (st.hands s) })
    | BidEntry.valueString _ =>
      (true, { st with
          trump_caller := some st.curr_seat,
          curr_seat := st.dealer + 1,
          hands := fun s => sort_hand_raw st.left_bower_suit (st.hands s) })
    | BidEntry.passed =>
      let seat2 := st.curr_seat + 1
      if seat2 = st.dealer + 1 then
        match st.up_card with
        | some u =>
          dt_loop ds { st with curr_seat := seat2, hidden_up_card := some u,
                               deck := u :: st.deck, up_card := none }
        | none => (false, { st with curr_seat := seat2 })
      else dt_loop ds { st with curr_seat := seat2 }

/-- EuchreTable.determine_trump: start the bidding at the seat left of
the dealer (self.trump_suit is None on every path that reaches the
loop, so it is reset here) and run the negotiation loop. -/
def determine_trump (decisions : List BidEntry) (st : GameState) : Bool × GameState :=
  dt_loop decisions { st with curr_seat := st.dealer + 1, trump_suit := none }

/-- The trick body of EuchreTable.process_trick applied to the
completed table plus the bookkeeping after the loop: the winner's team
gains a trick and the winner leads next (curr_seat).  The cards_played
entries are all some when the source calls this; absent entries fall
back to a default that a real run never consults. -/
def process_trick_st (st : GameState) : GameState :=
  let lead := st.lead_seat.getD 0
  let cards := fun s => (st.cards_played s).getD (Card.mk Rank.nine Suit.SPADES)
  let w := process_trick st.trump_suit st.left_bower_suit cards lead
  if w = 0 ∨ w = 2 then
    { st with tricks_won_02 := st.tricks_won_02 + 1, curr_seat := w }
  else
    { st with tricks_won_13 := st.tricks_won_13 + 1, curr_seat := w }

/-- The four play_card calls of EuchreTable.play_trick (the while loop
with num_cards_played counting to 4), threading the random.choice
oracle; each play records the current seat's chosen card and advances
the seat. -/
def play_trick_plays : Nat → List Nat → GameState → GameState × List Nat
  | 0, choices, st => (st, choices)
  | n + 1, choices, st =>
    let lead := st.lead_seat.getD 0
    let curr := st.curr_seat
    let r := play_card st.trump_suit st.left_bower_suit (st.cards_played lead)
        (st.hands curr) (choices.headD 0)
    play_trick_plays n choices.tail
      { st with
          cards_played := Function.update st.cards_played curr (some r.1),
          hands := Function.update st.hands curr r.2,
          curr_seat := curr + 1 }

/-- EuchreTable.play_trick: four cards are played, then the trick is
processed. -/
def play_trick (choices : List Nat) (st : GameState) : GameState × List Nat :=
  let r := play_trick_plays 4 choices st
  (process_trick_st r.1, r.2)

/-- EuchreTable.process_round: the trump caller's team scores 2 for all
five tricks, 1 for three or four, and otherwise the opposing team
scores 2.  Python's `self.trump_caller in (0, 2)` is False for a None
caller, which lands in the else branch. -/
def process_round (st : GameState) : GameState :=
  if st.trump_caller = some 0 ∨ st.trump_caller = some 2 then
    if st.tricks_won_02 = 5 then { st with score_02 := st.score_02 + 2 }
    else if 3 ≤ st.tricks_won_02 then { st with score_02 := st.score_02 + 1 }
    else { st with score_13 := st.score_13 + 2 }
  else
    if st.tricks_won_13 = 5 then { st with score_13 := st.score_13 + 2 }
    else if 3 ≤ st.tricks_won_13 then { st with score_13 := st.score_13 + 1 }
    else { st with score_02 := st.score_02 + 2 }

/-- The trick-playing while loop of EuchreTable.play_round: while fewer
than 5 tricks have been won, set the lead seat to the current seat,
clear the table and play a trick.  Each trick adds exactly one to one
team's count, so from the reset counters the loop runs exactly 5 times
and fuel 5 is never exhausted in a real run. -/
def tricks_loop : Nat → List Nat → GameState → GameState
  | 0, _, st => st
  | fuel + 1, choices, st =>
    if st.tricks_won_02 + st.tricks_won_13 < 5 then
      let r := play_trick choices
          { st with lead_seat := some st.curr_seat, cards_played := fun _ => none }
      tricks_loop fuel r.2 r.1
    else st

/-- EuchreTable.play_round: deal, negotiate trump, and either abort
(rotating the dealer) when negotiation fails, or reset the trick
counters, play the 5 tricks, score the round and rotate the dealer.
The dealer rotation and the curr_seat reset are sequential assignments,
so curr_seat ends left of the new dealer. -/
def play_round (shuffled : List Card) (decisions : List BidEntry) (choices : List Nat)
    (st : GameState) : GameState :=
  let st1 := euchre_deal_cards shuffled st
  match determine_trump decisions st1 with
  | (false, st2) =>
    let st3 := { st2 with dealer := st2.dealer + 1 }
    { st3 with curr_seat := st3.dealer + 1 }
  | (true, st2) =>
    let st3 := { st2 with tricks_won_02 := 0, tricks_won_13 := 0 }
    let st4 := tricks_loop 5 choices st3
    let st5 := process_round st4
    let st6 := { st5 with dealer := st5.dealer + 1 }
    { st6 with curr_seat := st6.dealer + 1 }

/-- C1: the claim says the trump-suit Jack (right bower) always wins
the trick it is played in.  The code disagrees: in process_trick a
candidate trump Jack is compared against an already-winning plain
trump card by raw rank value, where J ranks below Q, K and A.  Here,
with trump Hearts, seat 0 leads the Ace of Hearts and seat 1 plays the
Jack of Hearts (the right bower); the code awards the trick to seat 0,
though the claim (and euchre) requires seat 1. -/
theorem process_trick_right_bower_overtaken :
    process_trick (some Suit.HEARTS) (some Suit.DIAMONDS)
      ![Card.mk Rank.A Suit.HEARTS, Card.mk Rank.J Suit.HEARTS,
        Card.mk Rank.nine Suit.SPADES, Card.mk Rank.nine Suit.CLUBS] 0 = 0 := by
  decide

/-- C2 counterexample: with trump Hearts, seat 0 leads the Jack of
Diamonds (left bower), seat 1 plays the Ace of Hearts, seats 2 and 3
play plain non-trump cards.  The claim expects the Ace-of-Hearts seat
(seat 1) to win; process_trick instead keeps seat 0, because a winning
left bower is only beaten by the trump Jack. -/
theorem process_trick_scenario1_cex :
    process_trick (some Suit.HEARTS) (some Suit.DIAMONDS)
      ![Card.mk Rank.J Suit.DIAMONDS, Card.mk Rank.A Suit.HEARTS,
        Card.mk Rank.nine Suit.SPADES, Card.mk Rank.nine Suit.CLUBS] 0 ≠ 1 := by
  decide

lemma fin4_add_ne : ∀ l : Fin 4, l + 1 ≠ l ∧ l + 2 ≠ l ∧ l + 3 ≠ l := by
  decide

lemma trick_step_keeps_left_bower (ls : Suit) (cards : Fin 4 → Card) (w s : Fin 4)
    (hw : cards w = Card.mk Rank.J Suit.DIAMONDS)
    (hs : ¬((cards s).suit = Suit.HEARTS ∧ (cards s).rank = Rank.J)) :
    trick_step (some Suit.HEARTS) (some Suit.DIAMONDS) ls cards w s = w := by
  have h1 : ¬(some (cards s).suit = some Suit.HEARTS ∧ (cards s).rank = Rank.J) := by
    intro hc
    exact hs ⟨Option.some_inj.mp hc.1, hc.2⟩
  simp only [trick_step, hw]
  simp [h1]
  intro a b
  exact absurd ⟨a, b⟩ hs

/-- C2 amended: with trump Hearts, in every trick whose lead card is
the Jack of Diamonds (left bower), where some other seat plays the Ace
of Hearts and the remaining two seats play non-trump cards other than
the left bower, process_trick returns the lead seat: the left bower
outranks the Ace of Hearts and is only beaten by the trump Jack. -/
theorem process_trick_left_bower_lead_wins (lead j : Fin 4) (cards : Fin 4 → Card)
    (hj : j ≠ lead)
    (hlead : cards lead = Card.mk Rank.J Suit.DIAMONDS)
    (hja : cards j = Card.mk Rank.A Suit.HEARTS)
    (hothers : ∀ s, s ≠ lead → s ≠ j → (cards s).suit ≠ Suit.HEARTS ∧
        ¬((cards s).suit = Suit.DIAMONDS ∧ (cards s).rank = Rank.J)) :
    process_trick (some Suit.HEARTS) (some Suit.DIAMONDS) cards lead = lead := by
  have key : ∀ s, s ≠ lead → ¬((cards s).suit = Suit.HEARTS ∧ (cards s).rank = Rank.J) := by
    intro s hsl
    by_cases hsj : s = j
    · subst hsj
      rw [hja]
      rintro ⟨-, hr⟩
      exact absurd hr (by decide)
    · intro hc
      exact (hothers s hsl hsj).1 hc.1
  have h1 := fin4_add_ne lead
  simp only [process_trick]
  rw [trick_step_keeps_left_bower _ cards lead (lead + 1) hlead (key _ h1.1),
    trick_step_keeps_left_bower _ cards lead (lead + 2) hlead (key _ h1.2.1),
    trick_step_keeps_left_bower _ cards lead (lead + 3) hlead (key _ h1.2.2)]

/-- C2 witness: the amended theorem applied to a concrete trick (lead
seat 0 with the Jack of Diamonds, seat 1 with the Ace of Hearts, seats
2 and 3 with plain cards). -/
theorem process_trick_left_bower_lead_wins_witness :
    process_trick (some Suit.HEARTS) (some Suit.DIAMONDS)
      ![Card.mk Rank.J Suit.DIAMONDS, Card.mk Rank.A Suit.HEARTS,
        Card.mk Rank.ten Suit.SPADES, Card.mk Rank.Q Suit.CLUBS] 0 = 0 :=
  process_trick_left_bower_lead_wins 0 1
    ![Card.mk Rank.J Suit.DIAMONDS, Card.mk Rank.A Suit.HEARTS,
      Card.mk Rank.ten Suit.SPADES, Card.mk Rank.Q Suit.CLUBS]
    (by decide) (by decide) (by decide) (by decide)

/-- C3: the claim says that when the left-bower Jack is led, the legal
subset is exactly the hand's trump-suit cards.  The code disagrees: in
play_card the follow-printed-suit branch still admits plain cards of
the left bower's printed suit.  With trump Spades, lead Jack of Clubs
and hand [9 of Spades, 9 of Clubs], the computed playable list keeps
both cards, where the claim demands [9 of Spades] only. -/
theorem playable_cards_left_bower_lead_computed :
    playable_cards (some Suit.SPADES) (some Suit.CLUBS)
      (some (Card.mk Rank.J Suit.CLUBS))
      [Card.mk Rank.nine Suit.SPADES, Card.mk Rank.nine Suit.CLUBS]
      = [Card.mk Rank.nine Suit.SPADES, Card.mk Rank.nine Suit.CLUBS] := by
  decide

lemma left_bower_of_ne : ∀ t : Suit, left_bower_of t ≠ t := by
  decide

/-- C4: for every trump suit, hand and trump-suit lead card, the
left-bower Jack is in the playable list (it follows trump); for every
hand and non-Jack lead card of the left bower's printed suit, the
left-bower Jack is not in the follow-suit filter; and in the spec's
concrete scenario — trump Spades, lead 10 of Clubs, hand
[Jack of Clubs, 9 of Clubs] — the playable list is exactly
[9 of Clubs]: the reclassified Jack of Clubs is excluded from the
Clubs follow-suit group. -/
theorem playable_cards_left_bower_reclass :
    (∀ (t : Suit) (hand : List Card) (lead : Card), lead.suit = t →
      Card.mk Rank.J (left_bower_of t) ∈ hand →
      Card.mk Rank.J (left_bower_of t) ∈
        playable_cards (some t) (some (left_bower_of t)) (some lead) hand) ∧
    (∀ (t : Suit) (hand : List Card) (lead : Card), lead.suit = left_bower_of t →
      lead.rank ≠ Rank.J →
      Card.mk Rank.J (left_bower_of t) ∉
        hand.filter (playable_card_pred (some t) (some (left_bower_of t)) lead)) ∧
    playable_cards (some Suit.SPADES) (some Suit.CLUBS)
      (some (Card.mk Rank.ten Suit.CLUBS))
      [Card.mk Rank.J Suit.CLUBS, Card.mk Rank.nine Suit.CLUBS]
      = [Card.mk Rank.nine Suit.CLUBS] := by
  refine ⟨?_, ?_, by decide⟩
  · intro t hand lead hl hm
    have hpred : playable_card_pred (some t) (some (left_bower_of t)) lead
        (Card.mk Rank.J (left_bower_of t)) = true := by
      simp [playable_card_pred, hl]
    have hmemf : Card.mk Rank.J (left_bower_of t) ∈
        hand.filter (playable_card_pred (some t) (some (left_bower_of t)) lead) :=
      List.mem_filter.mpr ⟨hm, hpred⟩
    have hne2 : hand.filter (playable_card_pred (some t) (some (left_bower_of t)) lead) ≠ [] :=
      List.ne_nil_of_mem hmemf
    have hne : ¬((hand.filter (playable_card_pred (some t) (some (left_bower_of t)) lead)).isEmpty = true) := by
      simpa [List.isEmpty_iff] using hne2
    simp only [playable_cards]
    rw [if_neg hne]
    exact hmemf
  · intro t hand lead hl hr hmem
    have hpred := (List.mem_filter.mp hmem).2
    have hlt : ¬(some lead.suit = some t) := by
      rw [hl]
      intro hx
      exact left_bower_of_ne t (Option.some_inj.mp hx)
    simp [playable_card_pred, hlt, hl, hr] at hpred
    exact left_bower_of_ne t hpred

/-- C4 witness: the universal part applied to trump Spades, an Ace of
Spades lead, and a hand holding only the Jack of Clubs. -/
theorem playable_cards_left_bower_reclass_witness :
    Card.mk Rank.J Suit.CLUBS ∈ playable_cards (some Suit.SPADES) (some Suit.CLUBS)
      (some (Card.mk Rank.A Suit.SPADES)) [Card.mk Rank.J Suit.CLUBS] :=
  playable_cards_left_bower_reclass.1 Suit.SPADES [Card.mk Rank.J Suit.CLUBS]
    (Card.mk Rank.A Suit.SPADES) rfl (by decide)

/-- C5: for every trump suit, the sort key of Player.sort_hand gives
the trump Jack the unique minimum value -7, the left-bower Jack the
unique second value -6 (it is never bucketed with its printed suit),
and every trump-suit card a value strictly below that of every
non-trump card other than the left-bower Jack. -/
theorem compare_trump_bower_values : ∀ t : Suit,
    compare_trump (some t) (some (left_bower_of t)) (Card.mk Rank.J t) = -7 ∧
    (∀ c : Card, compare_trump (some t) (some (left_bower_of t)) c = -7 →
      c = Card.mk Rank.J t) ∧
    compare_trump (some t) (some (left_bower_of t)) (Card.mk Rank.J (left_bower_of t)) = -6 ∧
    (∀ c : Card, compare_trump (some t) (some (left_bower_of t)) c = -6 →
      c = Card.mk Rank.J (left_bower_of t)) ∧
    (∀ c : Card, c ≠ Card.mk Rank.J t →
      -7 < compare_trump (some t) (some (left_bower_of t)) c) ∧
    (∀ c1 c2 : Card, c1.suit = t → c2.suit ≠ t → c2 ≠ Card.mk Rank.J (left_bower_of t) →
      compare_trump (some t) (some (left_bower_of t)) c1 <
        compare_trump (some t) (some (left_bower_of t)) c2) := by
  decide

/-- C5 witness: the strict trump-below-non-trump comparison applied to
the 9 of Spades against the Ace of Hearts under trump Spades. -/
theorem compare_trump_bower_values_witness :
    compare_trump (some Suit.SPADES) (some Suit.CLUBS) (Card.mk Rank.nine Suit.SPADES) <
      compare_trump (some Suit.SPADES) (some Suit.CLUBS) (Card.mk Rank.A Suit.HEARTS) :=
  (compare_trump_bower_values Suit.SPADES).2.2.2.2.2 (Card.mk Rank.nine Suit.SPADES)
    (Card.mk Rank.A Suit.HEARTS) rfl (by decide) (by decide)

/-- C6: for every trump context and lead card (or none), the playable
list computed in play_card is non-empty whenever the hand is:
either the filtered follow-suit subset is non-empty, or the fallback
makes the whole hand playable. -/
theorem playable_cards_ne_nil (trump_suit left_bower_suit : Option Suit)
    (lead_card : Option Card) (hand : List Card) (h : hand ≠ []) :
    playable_cards trump_suit left_bower_suit lead_card hand ≠ [] := by
  cases lead_card with
  | none => exact h
  | some lead =>
    by_cases hpc : (hand.filter (playable_card_pred trump_suit left_bower_suit lead)).isEmpty
    · simp [playable_cards, hpc, h]
    · simp only [playable_cards, hpc, if_false, Bool.false_eq_true]
      simpa [List.isEmpty_iff] using hpc

/-- C6 witness: a one-card hand against a lead the card cannot follow
still yields a non-empty playable list. -/
theorem playable_cards_ne_nil_witness :
    playable_cards (some Suit.SPADES) (some Suit.CLUBS)
      (some (Card.mk Rank.A Suit.HEARTS)) [Card.mk Rank.nine Suit.DIAMONDS] ≠ [] :=
  playable_cards_ne_nil (some Suit.SPADES) (some Suit.CLUBS)
    (some (Card.mk Rank.A Suit.HEARTS)) [Card.mk Rank.nine Suit.DIAMONDS] (by decide)

/-- C7: with a known trump caller and 5 tricks split between the
teams, process_round adds exactly 2 to the calling team's score for a
march, exactly 1 for 3 or 4 tricks, and otherwise exactly 2 to the
opposing team's score, leaving the other score untouched in every
case, for each of the 4 possible callers. -/
theorem process_round_scoring (st : GameState) (caller : Fin 4)
    (hc : st.trump_caller = some caller)
    (hsum : st.tricks_won_02 + st.tricks_won_13 = 5) :
    ((caller = 0 ∨ caller = 2) →
      ((st.tricks_won_02 = 5 →
          (process_round st).score_02 = st.score_02 + 2 ∧
          (process_round st).score_13 = st.score_13) ∧
       (3 ≤ st.tricks_won_02 → st.tricks_won_02 ≤ 4 →
          (process_round st).score_02 = st.score_02 + 1 ∧
          (process_round st).score_13 = st.score_13) ∧
       (st.tricks_won_02 ≤ 2 →
          (process_round st).score_13 = st.score_13 + 2 ∧
          (process_round st).score_02 = st.score_02))) ∧
    ((caller = 1 ∨ caller = 3) →
      ((st.tricks_won_13 = 5 →
          (process_round st).score_13 = st.score_13 + 2 ∧
          (process_round st).score_02 = st.score_02) ∧
       (3 ≤ st.tricks_won_13 → st.tricks_won_13 ≤ 4 →
          (process_round st).score_13 = st.score_13 + 1 ∧
          (process_round st).score_02 = st.score_02) ∧
       (st.tricks_won_13 ≤ 2 →
          (process_round st).score_02 = st.score_02 + 2 ∧
          (process_round st).score_13 = st.score_13))) := by
  unfold process_round
  rw [hc]
  constructor
  · intro hcall
    have hcond : some caller = some (0 : Fin 4) ∨ some caller = some (2 : Fin 4) := by
      rcases hcall with h | h
      · exact Or.inl (by rw [h])
      · exact Or.inr (by rw [h])
    rw [if_pos hcond]
    refine ⟨fun h5 => ?_, fun h3 h4 => ?_, fun h2 => ?_⟩ <;>
      split_ifs <;> first | exact ⟨rfl, rfl⟩ | (exfalso; omega)
  · intro hcall
    have hcond : ¬(some caller = some (0 : Fin 4) ∨ some caller = some (2 : Fin 4)) := by
      rcases hcall with h | h <;> subst h <;> decide
    rw [if_neg hcond]
    refine ⟨fun h5 => ?_, fun h3 h4 => ?_, fun h2 => ?_⟩ <;>
      split_ifs <;> first | exact ⟨rfl, rfl⟩ | (exfalso; omega)

/-- C7 witness: a concrete state where seat 0 called trump and team
{0,2} won 3 of the 5 tricks, scoring exactly one point. -/
def stC7 : GameState :=
  { stBase with trump_caller := some 0, tricks_won_02 := 3, tricks_won_13 := 2 }

theorem process_round_scoring_witness :
    (process_round stC7).score_02 = stC7.score_02 + 1 ∧
    (process_round stC7).score_13 = stC7.score_13 :=
  ((process_round_scoring stC7 0 rfl (by decide)).1 (Or.inl rfl)).2.1 (by decide) (by decide)

/-- The bid decisions of the failing C8 round: all four seats pass on
the up-card, then the first bidder of the second round names Hearts
through the raw-string branch of decide_trump. -/
def dsC8 : List BidEntry :=
  [BidEntry.passed, BidEntry.passed, BidEntry.passed, BidEntry.passed,
   BidEntry.valueString Suit.HEARTS]

/-- The pre-bid state of the failing C8 round: a fresh table with the
Ace of Spades turned up. -/
def stC8 : GameState :=
  { stBase with up_card := some (Card.mk Rank.A Suit.SPADES) }

/-- C8: the claimed invariant fails on the code along a reachable
path.  Under RANDOM trump logic (the logic main() installs for every
seat), Player.decide_trump in the second bidding round returns a
suit's raw value string instead of a Suit member; the first two
conjuncts reproduce the failing bidding sequence from
decide_trump_random (each seat's pass while the Ace of Spades shows,
then the string for Hearts once it is turned down).  determine_trump
accepts the truthy string and returns True with seat 1 as trump
caller, but the string equals no Suit member, so the left-bower elif
table leaves left_bower_suit stale — here still None — and no trump
suit member is recorded either, contradicting the claim, which
requires left_bower_suit = Diamonds for a Hearts call. -/
theorem determine_trump_left_bower_stale :
    decide_trump_random (some (Card.mk Rank.A Suit.SPADES)) none 1 = BidEntry.passed ∧
    decide_trump_random none (some (Card.mk Rank.A Suit.SPADES)) 0
      = BidEntry.valueString Suit.HEARTS ∧
    (determine_trump dsC8 stC8).1 = true ∧
    (determine_trump dsC8 stC8).2.trump_suit = none ∧
    (determine_trump dsC8 stC8).2.left_bower_suit = none ∧
    (determine_trump dsC8 stC8).2.trump_caller = some 1 := by
  decide

lemma dt_loop_fst_all_passed (ds : List BidEntry) :
    ∀ st : GameState, (∀ d ∈ ds, d = BidEntry.passed) → (dt_loop ds st).1 = false := by
  induction ds with
  | nil => intro st _; rfl
  | cons d ds ih =>
    intro st hall
    have hd : d = BidEntry.passed := hall d (List.mem_cons_self d ds)
    subst hd
    have hall2 : ∀ d ∈ ds, d = BidEntry.passed := fun d hd => hall d (List.mem_cons_of_mem _ hd)
    simp only [dt_loop]
    split
    · split
      · exact ih _ hall2
      · rfl
    · exact ih _ hall2

lemma dt_loop_frame (ds : List BidEntry) :
    ∀ st : GameState,
      (dt_loop ds st).2.score_02 = st.score_02 ∧
      (dt_loop ds st).2.score_13 = st.score_13 ∧
      (dt_loop ds st).2.dealer = st.dealer ∧
      (dt_loop ds st).2.tricks_won_02 = st.tricks_won_02 ∧
      (dt_loop ds st).2.tricks_won_13 = st.tricks_won_13 := by
  induction ds with
  | nil => intro st; exact ⟨rfl, rfl, rfl, rfl, rfl⟩
  | cons d ds ih =>
    intro st
    cases d with
    | member t => exact ⟨rfl, rfl, rfl, rfl, rfl⟩
    | valueString s => exact ⟨rfl, rfl, rfl, rfl, rfl⟩
    | passed =>
      simp only [dt_loop]
      split
      · split
        · exact ih _
        · exact ⟨rfl, rfl, rfl, rfl, rfl⟩
      · exact ih _

/-- C9: when all four seats pass on the up-card and all four pass
again in the second bidding round (eight passes in the decision
oracle), the round aborts: determine_trump reports failure, play_round
leaves both cumulative scores and both trick counters unchanged, the
dealer advances by exactly one seat, and the current seat ends left of
the new dealer. -/
theorem play_round_all_pass (st : GameState) (shuffled : List Card) (choices : List Nat) :
    (determine_trump (List.replicate 8 BidEntry.passed) (euchre_deal_cards shuffled st)).1 = false ∧
    (play_round shuffled (List.replicate 8 BidEntry.passed) choices st).score_02 = st.score_02 ∧
    (play_round shuffled (List.replicate 8 BidEntry.passed) choices st).score_13 = st.score_13 ∧
    (play_round shuffled (List.replicate 8 BidEntry.passed) choices st).tricks_won_02 = st.tricks_won_02 ∧
    (play_round shuffled (List.replicate 8 BidEntry.passed) choices st).tricks_won_13 = st.tricks_won_13 ∧
    (play_round shuffled (List.replicate 8 BidEntry.passed) choices st).dealer = st.dealer + 1 ∧
    (play_round shuffled (List.replicate 8 BidEntry.passed) choices st).curr_seat = st.dealer + 1 + 1 := by
  have hall : ∀ d ∈ List.replicate 8 BidEntry.passed, d = BidEntry.passed := by
    intro d hd
    exact List.eq_of_mem_replicate hd
  have hfalse : (determine_trump (List.replicate 8 BidEntry.passed) (euchre_deal_cards shuffled st)).1
      = false := dt_loop_fst_all_passed _ _ hall
  have hframe := dt_loop_frame (List.replicate 8 BidEntry.passed)
    { euchre_deal_cards shuffled st with
        curr_seat := (euchre_deal_cards shuffled st).dealer + 1, trump_suit := none }
  rcases hdt : determine_trump (List.replicate 8 BidEntry.passed) (euchre_deal_cards shuffled st)
    with ⟨b, st2⟩
  have hb : b = false := by
    have h1 := hfalse
    rw [hdt] at h1
    exact h1
  subst hb
  have hst2 : st2 = (determine_trump (List.replicate 8 BidEntry.passed) (euchre_deal_cards shuffled st)).2 := by
    rw [hdt]
  have hfr : st2.score_02 = st.score_02 ∧ st2.score_13 = st.score_13 ∧
      st2.dealer = st.dealer ∧ st2.tricks_won_02 = st.tricks_won_02 ∧
      st2.tricks_won_13 = st.tricks_won_13 := by
    rw [hst2]
    exact hframe
  refine ⟨rfl, ?_, ?_, ?_, ?_, ?_, ?_⟩ <;>
    (simp only [play_round]; rw [hdt];
      simp [hfr.1, hfr.2.1, hfr.2.2.1, hfr.2.2.2.1, hfr.2.2.2.2])

lemma mem_euchreBase : ∀ c : Card, c ∈ euchreBase := by
  decide

/-- C10 amended: if euchre_deal_cards runs while the dealer already
holds 5 cards (the state an aborted round leaves, since aborting
clears no hands), the dealing loop adds no card to any hand — each
hand is merely re-sorted, keeping exactly the same cards — only the
up-card is drawn from the freshly reshuffled deck, and the remaining
deck contains a copy of every card held in the hands except possibly
the up-card itself (the drawn up-card may duplicate a held card, and
that one card is then missing from the deck). -/
theorem euchre_deal_cards_full_dealer (st : GameState) (shuffled : List Card)
    (hfull : (st.hands st.dealer).length = 5)
    (hperm : shuffled.Perm euchreBase) :
    (∀ s, (euchre_deal_cards shuffled st).hands s =
        sort_hand st.trump_suit st.left_bower_suit (st.hands s) ∧
      ((euchre_deal_cards shuffled st).hands s).Perm (st.hands s)) ∧
    (euchre_deal_cards shuffled st).up_card = shuffled.head? ∧
    (euchre_deal_cards shuffled st).deck = shuffled.tail ∧
    (∀ s, ∀ c ∈ st.hands s, (euchre_deal_cards shuffled st).up_card ≠ some c →
      c ∈ (euchre_deal_cards shuffled st).deck) := by
  have hnl : ¬((st.hands st.dealer).length < 5) := by omega
  have hloop : deal_loop 16 0 st.hands shuffled st.dealer st.curr_seat
      = (st.hands, shuffled, st.curr_seat) := by
    simp [deal_loop, hnl]
  have hhands : ∀ s, (euchre_deal_cards shuffled st).hands s =
      sort_hand st.trump_suit st.left_bower_suit (st.hands s) := by
    intro s
    simp [euchre_deal_cards, hloop]
  have hup : (euchre_deal_cards shuffled st).up_card = shuffled.head? := by
    simp [euchre_deal_cards, hloop]
  have hdeck : (euchre_deal_cards shuffled st).deck = shuffled.tail := by
    simp [euchre_deal_cards, hloop]
  refine ⟨fun s => ⟨hhands s, ?_⟩, hup, hdeck, ?_⟩
  · rw [hhands s]
    exact List.perm_insertionSort _ _
  · intro s c hc hne
    have hcs : c ∈ shuffled := hperm.mem_iff.mpr (mem_euchreBase c)
    rw [hup] at hne
    rw [hdeck]
    cases shuffled with
    | nil => cases hcs
    | cons a l =>
      rcases List.mem_cons.mp hcs with h | h
      · exact absurd (by rw [h]; exact rfl) hne
      · simpa using h

/-- Concrete 5-card hands for the C10 states: the 20 cards an aborted
round leaves distributed among the four seats. -/
def handC10a : List Card :=
  [Card.mk Rank.nine Suit.SPADES, Card.mk Rank.ten Suit.SPADES, Card.mk Rank.J Suit.SPADES,
   Card.mk Rank.Q Suit.SPADES, Card.mk Rank.K Suit.SPADES]

def handC10b : List Card :=
  [Card.mk Rank.A Suit.SPADES, Card.mk Rank.nine Suit.HEARTS, Card.mk Rank.ten Suit.HEARTS,
   Card.mk Rank.J Suit.HEARTS, Card.mk Rank.Q Suit.HEARTS]

def handC10c : List Card :=
  [Card.mk Rank.K Suit.HEARTS, Card.mk Rank.A Suit.HEARTS, Card.mk Rank.nine Suit.CLUBS,
   Card.mk Rank.ten Suit.CLUBS, Card.mk Rank.J Suit.CLUBS]

def handC10d : List Card :=
  [Card.mk Rank.Q Suit.CLUBS, Card.mk Rank.K Suit.CLUBS, Card.mk Rank.A Suit.CLUBS,
   Card.mk Rank.nine Suit.DIAMONDS, Card.mk Rank.ten Suit.DIAMONDS]

/-- A post-abort state for C10: dealer 0, every seat still holding its
5 cards from the aborted round. -/
def stC10 : GameState :=
  { stBase with hands := ![handC10a, handC10b, handC10c, handC10d] }

/-- A possible fresh shuffle for C10 whose first pop is the 9 of
Spades, a card seat 0 still holds. -/
def shuffledC10 : List Card :=
  Card.mk Rank.nine Suit.SPADES :: euchreBase.erase (Card.mk Rank.nine Suit.SPADES)

/-- C10 counterexample: on this reachable post-abort state the claim's
final clause fails as stated: the dealing loop deals nothing (the
dealer's hand already has 5 cards), the 9 of Spades is drawn as the
up-card from the fresh shuffle, and although seat 0 still holds a copy
of the 9 of Spades, the deck no longer contains one. -/
theorem euchre_deal_cards_dup_cex :
    shuffledC10.Perm euchreBase ∧
    (stC10.hands stC10.dealer).length = 5 ∧
    Card.mk Rank.nine Suit.SPADES ∈ stC10.hands 0 ∧
    (euchre_deal_cards shuffledC10 stC10).up_card = some (Card.mk Rank.nine Suit.SPADES) ∧
    Card.mk Rank.nine Suit.SPADES ∈ (euchre_deal_cards shuffledC10 stC10).hands 0 ∧
    Card.mk Rank.nine Suit.SPADES ∉ (euchre_deal_cards shuffledC10 stC10).deck := by
  decide

/-- C10 witness: the amended theorem applied to the concrete post-abort
state stC10 with the identity shuffle of the base deck. -/
theorem euchre_deal_cards_full_dealer_witness :
    (∀ s, (euchre_deal_cards euchreBase stC10).hands s =
        sort_hand stC10.trump_suit stC10.left_bower_suit (stC10.hands s) ∧
      ((euchre_deal_cards euchreBase stC10).hands s).Perm (stC10.hands s)) ∧
    (euchre_deal_cards euchreBase stC10).up_card = euchreBase.head? ∧
    (euchre_deal_cards euchreBase stC10).deck = euchreBase.tail ∧
    (∀ s, ∀ c ∈ stC10.hands s, (euchre_deal_cards euchreBase stC10).up_card ≠ some c →
      c ∈ (euchre_deal_cards euchreBase stC10).deck) :=
  euchre_deal_cards_full_dealer stC10 euchreBase (by decide) (List.Perm.refl _)

end Euchre
